import Mathlib

/-!
Verification of the stock-history collection pipeline
(`scripts/collect_history.py` and `scripts/collect_history_curl.py`)
as a shallow embedding in Lean 4.

Dates are modelled as natural-number day indices (the Python code only
adds `timedelta(days=1)` and compares dates, so the order embedding is
faithful).  Prices and volumes are rationals; a pandas `NaN` cell is
modelled as `Option.none`.  Python exceptions are modelled with `Except`,
and a `try/except` block by matching on the `Except` value.
-/

namespace Collect

/-! ## format_symbol (collect_history_curl.py, lines 85-98)

Python strings are modelled as `List Char`; `symbol.endswith(".SA")` is
the list-suffix test, `len(symbol) == 5` is `length = 5`, and
`symbol[4].isdigit()` is `Char.isDigit` on the character at index 4
(the symbols in play are ASCII, where the two digit predicates agree). -/

def sufSA : List Char := ['.', 'S', 'A']

def format_symbol (s : List Char) : List Char :=
  if sufSA <:+ s then s
  else if s.length = 5 ∧ (s.get? 4).elim false Char.isDigit = true then s ++ sufSA
  else s

/-! ## Sync-window computation (process_symbol, collect_history.py
lines 260-270 / collect_history_curl.py lines 357-367)

Both files compute `start_date = last_date + timedelta(days=1)` and skip
the symbol (returning before any fetch) when `start_date >= today`;
otherwise they fetch the window `[start_date, now]`. -/

inductive SyncDecision where
  | alreadyCurrent : SyncDecision
  | window (start stop : Nat) : SyncDecision
  deriving DecidableEq, Repr

/-- The sync-window computation for an instrument whose most recent
persisted bar date is `last`, evaluated on day `today`. -/
def computeWindow (last today : Nat) : SyncDecision :=
  if last + 1 ≥ today then .alreadyCurrent
  else .window (last + 1) today

/-! ## Persistence model

`insert_stock` (collect_history.py lines 88-99 / collect_history_curl.py
lines 112-123) and `insert_historical_data` (lines 101-141 / 125-165)
target the tables `stocks(id, symbol UNIQUE, name)` and
`historical_data(stock_id, date, open, high, low, close, volume,
min_price, max_price, UNIQUE(stock_id, date))`.  The store is modelled
as lists of rows plus the id sequence; `INSERT ... ON CONFLICT ... DO
UPDATE` is modelled by updating the rows whose natural key matches and
appending otherwise. -/

/-- A raw bar row as iterated from the pandas DataFrame in
`collect_history.py` (columns `Open/High/Low/Close/Volume`, date
index).  A `NaN` cell is `none`. -/
structure PyRow where
  date : Nat
  openP : Option ℚ
  high : Option ℚ
  low : Option ℚ
  close : Option ℚ
  volume : Option ℚ
  deriving DecidableEq, Repr

/-- A row of the DataFrame built by `process_yahoo_data` in
`collect_history_curl.py` (columns `open/high/low/close/volume/
min_price/max_price`, date index). -/
structure CurlRow extends PyRow where
  min_price : Option ℚ
  max_price : Option ℚ
  deriving DecidableEq, Repr

/-- The validity filter of `insert_historical_data` (identical in both
files): open, high, low, close and volume all present (not NaN),
volume > 0, and all four prices > 0. -/
def validRow (r : PyRow) : Prop :=
  (∃ o, r.openP = some o ∧ 0 < o) ∧
  (∃ h, r.high = some h ∧ 0 < h) ∧
  (∃ l, r.low = some l ∧ 0 < l) ∧
  (∃ c, r.close = some c ∧ 0 < c) ∧
  (∃ v, r.volume = some v ∧ 0 < v)

instance (r : PyRow) : Decidable (validRow r) := by
  unfold validRow
  infer_instance

/-- A persisted row of `historical_data`. -/
structure BarRow where
  stock_id : Nat
  date : Nat
  openP : Option ℚ
  high : Option ℚ
  low : Option ℚ
  close : Option ℚ
  volume : Option ℚ
  minp : Option ℚ
  maxp : Option ℚ
  deriving DecidableEq, Repr

/-- A persisted row of `stocks`. -/
structure StockRow where
  id : Nat
  symbol : String
  name : String
  deriving DecidableEq, Repr

/-- The relational store: the two tables plus the id sequence backing
`stocks.id`. -/
structure DB where
  stocks : List StockRow
  bars : List BarRow
  nextId : Nat
  deriving DecidableEq, Repr

/-- Natural key of `historical_data`: `(stock_id, date)`. -/
def barKey (b : BarRow) : Nat × Nat := (b.stock_id, b.date)

/-- One row of the `execute_values` upsert: on conflict on
`(stock_id, date)` every data column is set to the incoming value
(`DO UPDATE SET open = EXCLUDED.open, ...`), otherwise the row is
inserted. -/
def upsertBarRow (bars : List BarRow) (r : BarRow) : List BarRow :=
  if ∃ b ∈ bars, barKey b = barKey r then
    bars.map (fun b => if barKey b = barKey r then r else b)
  else bars ++ [r]

/-- The tuple built by `insert_historical_data` in `collect_history.py`:
`(stock_id, date, Open, High, Low, Close, Volume, Low, High)` — the
`min_price`/`max_price` slots are filled from `Low`/`High`. -/
def toBarRow_py (sid : Nat) (r : PyRow) : BarRow :=
  ⟨sid, r.date, r.openP, r.high, r.low, r.close, r.volume, r.low, r.high⟩

/-- The tuple built by `insert_historical_data` in
`collect_history_curl.py`: the `min_price`/`max_price` slots are read
from the DataFrame's own `min_price`/`max_price` columns. -/
def toBarRow_curl (sid : Nat) (r : CurlRow) : BarRow :=
  ⟨sid, r.date, r.openP, r.high, r.low, r.close, r.volume, r.min_price, r.max_price⟩

/-- `insert_stock`: `INSERT INTO stocks (symbol, name) VALUES (%s, %s)
ON CONFLICT (symbol) DO UPDATE SET name = EXCLUDED.name RETURNING id`.
Returns the id of the (inserted or updated) row and the new store. -/
def insert_stock (db : DB) (symbol name : String) : Nat × DB :=
  match db.stocks.find? (fun e => e.symbol == symbol) with
  | some e =>
      (e.id,
       { db with stocks :=
          db.stocks.map (fun x =>
            if x.symbol = symbol then { x with name := name } else x) })
  | none =>
      (db.nextId,
       { db with
          stocks := db.stocks ++ [⟨db.nextId, symbol, name⟩],
          nextId := db.nextId + 1 })

/-- `insert_historical_data` of `collect_history.py`: filters the
DataFrame rows through the validity filter, upserts the surviving
tuples keyed on `(stock_id, date)`, and returns `len(data)`.  (The
`df.empty` and `not data` early returns coincide with folding the empty
list.) -/
def insert_historical_data (db : DB) (sid : Nat) (df : List PyRow) : DB × Nat :=
  let data := (df.filter (fun r => decide (validRow r))).map (toBarRow_py sid)
  ({ db with bars := data.foldl upsertBarRow db.bars }, data.length)

/-- `insert_historical_data` of `collect_history_curl.py`: the DataFrame
may be `None` (`if df is None or df.empty: return 0`); otherwise the
same validity filter is applied (it inspects open/high/low/close/volume
only, not min_price/max_price) and the tuples carry the DataFrame's
`min_price`/`max_price` columns. -/
def insert_historical_data_curl (db : DB) (sid : Nat) (df : Option (List CurlRow)) :
    DB × Nat :=
  match df with
  | none => (db, 0)
  | some rows =>
      let data := (rows.filter (fun r => decide (validRow r.toPyRow))).map (toBarRow_curl sid)
      ({ db with bars := data.foldl upsertBarRow db.bars }, data.length)

/-- The per-symbol persistence sequence of `process_symbol`
(`collect_history.py`): `insert_stock` followed by
`insert_historical_data` with the returned id. -/
def runSync (db : DB) (symbol name : String) (df : List PyRow) : DB :=
  let (sid, db1) := insert_stock db symbol name
  (insert_historical_data db1 sid df).1

/-- The per-symbol persistence sequence of `process_symbol`
(`collect_history_curl.py`). -/
def runSyncCurl (db : DB) (symbol name : String) (df : Option (List CurlRow)) : DB :=
  let (sid, db1) := insert_stock db symbol name
  (insert_historical_data_curl db1 sid df).1

/-! ## Response normalization (process_yahoo_data,
collect_history_curl.py lines 255-306)

The provider payload element `chart.result[0]` carries a `timestamp`
array and `indicators.quote[0]` with per-field arrays.  Missing JSON
keys are folded into defaults exactly as the chained `.get(..., default)`
calls do; `indicators.quote` being a present but empty list raises
`IndexError` inside the `try`; constructing the DataFrame from arrays of
unequal lengths raises `ValueError`; the outer `except` turns any raised
exception into `None`.  Timestamps are modelled as the day index they
convert to. -/

/-- The `indicators.quote[0]` object: per-field arrays, a missing field
defaulting to the empty list, a `null` entry to `none`. -/
structure Quote where
  opens : List (Option ℚ)
  highs : List (Option ℚ)
  lows : List (Option ℚ)
  closes : List (Option ℚ)
  volumes : List (Option ℚ)
  deriving DecidableEq, Repr

/-- The `{}` default used when `indicators` or `quote` is absent. -/
def emptyQuote : Quote := ⟨[], [], [], [], []⟩

/-- The `chart.result[0]` payload: `timestamp` (missing key already
folded to `[]`) and the `indicators.quote` list (`none` when the
`indicators`/`quote` keys are absent). -/
structure ChartResult where
  timestamp : List Nat
  quote : Option (List Quote)
  deriving DecidableEq, Repr

/-- The DataFrame constructed by `process_yahoo_data`: one row per
timestamp, with `min_price` filled from the `lows` array and `max_price`
from the `highs` array. -/
def buildRows (dates : List Nat) (q : Quote) : List CurlRow :=
  (List.range dates.length).map (fun i =>
    { date := dates.getD i 0
      openP := q.opens.getD i none
      high := q.highs.getD i none
      low := q.lows.getD i none
      close := q.closes.getD i none
      volume := q.volumes.getD i none
      min_price := q.lows.getD i none
      max_price := q.highs.getD i none })

/-- The `df.dropna()` row criterion: no column of the row is NaN. -/
def rowComplete (r : CurlRow) : Bool :=
  r.openP.isSome && r.high.isSome && r.low.isSome && r.close.isSome &&
  r.volume.isSome && r.min_price.isSome && r.max_price.isSome

/-- The body of `process_yahoo_data` up to the outer `except`: an
`Except` error models a raised Python exception, `Option.none` models
the explicit `return None` on insufficient data. -/
def process_yahoo_data_exc (d : ChartResult) : Except String (Option (List CurlRow)) := do
  let q ← match d.quote with
    | none => pure emptyQuote
    | some [] => Except.error "IndexError: list index out of range"
    | some (q :: _) => pure q
  if ¬ (0 < d.timestamp.length ∧ 0 < q.opens.length) then
    pure none
  else if q.opens.length = d.timestamp.length ∧ q.highs.length = d.timestamp.length ∧
      q.lows.length = d.timestamp.length ∧ q.closes.length = d.timestamp.length ∧
      q.volumes.length = d.timestamp.length then
    pure (some ((buildRows d.timestamp q).filter rowComplete))
  else Except.error "ValueError: All arrays must be of the same length"

/-- `process_yahoo_data` with its outer `try/except`: any raised
exception is logged and turned into `None`. -/
def process_yahoo_data (d : ChartResult) : Option (List CurlRow) :=
  match process_yahoo_data_exc d with
  | .ok r => r
  | .error _ => none

/-! ## Retry loops

`collect_stock_data` (collect_history.py lines 143-211) and
`get_stock_history` (collect_history_curl.py lines 167-253).  The fetch
attempt itself is an oracle indexed by the attempt number; sleeps and
attempted fetches are recorded as traces.  `script_running` is read once
per iteration and modelled as a predicate on the iteration index.  Both
loops are written with an explicit fuel equal to the remaining retries,
which matches `while retry < max_retries` (retry increments exactly once
per iteration) and `for attempt in range(retries)`. -/

/-- Trace of one run of a retry loop: the returned value (if any), the
sequence of sleep durations, and the attempt indices that issued a
fetch. -/
structure LoopTrace (α : Type) where
  result : Option α
  sleeps : List ℚ
  tries : List Nat
  deriving DecidableEq, Repr

/-- Outcome of one `get_stock_history` attempt body: a non-empty
DataFrame (`return df`), a payload with no `result` entry (`return
None` immediately), or any of the `continue` paths (HTTP error, API
error, exception, empty DataFrame). -/
inductive AttemptOut (α : Type) where
  | success (a : α) : AttemptOut α
  | noData : AttemptOut α
  | retryable : AttemptOut α
  deriving DecidableEq, Repr

/-- The retry loop of `collect_stock_data` (collect_history.py):
`delay` starts at 1; before retry `k ≥ 1` it sleeps `delay * jitter k`
with `jitter k = uniform(0.5, 1.5)` and then doubles `delay`.  The
loop condition is `retry < max_retries and script_running`. -/
def pyLoop {α : Type} (attempt : Nat → Option α) (jitter : Nat → ℚ)
    (running : Nat → Bool) :
    Nat → Nat → ℚ → List ℚ → List Nat → LoopTrace α
  | 0, _, _, sleeps, tries => ⟨none, sleeps, tries⟩
  | fuel + 1, retry, delay, sleeps, tries =>
    if running retry = true then
      let sleeps' := if 0 < retry then sleeps ++ [delay * jitter retry] else sleeps
      let delay' := if 0 < retry then 2 * delay else delay
      match attempt retry with
      | some a => ⟨some a, sleeps', tries ++ [retry]⟩
      | none => pyLoop attempt jitter running fuel (retry + 1) delay' sleeps' (tries ++ [retry])
    else ⟨none, sleeps, tries⟩

/-- Entry point of the `collect_stock_data` retry loop:
`retry = 0`, `delay = 1`. -/
def collect_stock_data_loop {α : Type} (attempt : Nat → Option α) (jitter : Nat → ℚ)
    (running : Nat → Bool) (maxRetries : Nat) : LoopTrace α :=
  pyLoop attempt jitter running maxRetries 0 1 [] []

/-- The `delay` variable of `collect_stock_data` after `k` doublings:
`pyDelay k = 2^k`; the sleep before retry `k` is
`pyDelay (k-1) * jitter k`. -/
def pyDelay : Nat → ℚ
  | 0 => 1
  | k + 1 => 2 * pyDelay k

/-- The retry loop of `get_stock_history` (collect_history_curl.py):
`for attempt in range(retries)`; at each iteration it first checks
`script_running` and returns `None` immediately (no sleep) when the
flag is cleared; before attempt `k ≥ 1` it sleeps
`2 ** k + uniform(0, 1)`. -/
def curlLoop {α : Type} (attempt : Nat → AttemptOut α) (u : Nat → ℚ)
    (running : Nat → Bool) :
    Nat → Nat → List ℚ → List Nat → LoopTrace α
  | 0, _, sleeps, tries => ⟨none, sleeps, tries⟩
  | fuel + 1, k, sleeps, tries =>
    if running k = true then
      let sleeps' := if 0 < k then sleeps ++ [(2 : ℚ) ^ k + u k] else sleeps
      match attempt k with
      | .success a => ⟨some a, sleeps', tries ++ [k]⟩
      | .noData => ⟨none, sleeps', tries ++ [k]⟩
      | .retryable => curlLoop attempt u running fuel (k + 1) sleeps' (tries ++ [k])
    else ⟨none, sleeps, tries⟩

/-- Entry point of the `get_stock_history` retry loop. -/
def get_stock_history_loop {α : Type} (attempt : Nat → AttemptOut α) (u : Nat → ℚ)
    (running : Nat → Bool) (retries : Nat) : LoopTrace α :=
  curlLoop attempt u running retries 0 [] []

/-! ## Alias resolver (try_aliases, collect_history.py lines 213-237 /
collect_history_curl.py lines 308-334)

The fetch callee (`collect_stock_data`, returning a `(name, df)` pair,
resp. `get_stock_history`, returning `df` or `None`) is an oracle.
`script_running` only transitions from true to false once per run and
is modelled as a boolean constant over one resolver call.  The `calls`
trace lists the symbols handed to the fetch callee, in order. -/

/-- The shared `SYMBOL_ALIASES` table (identical in both files). -/
def SYMBOL_ALIASES : List (String × List String) :=
  [("TRPL4", ["TRPL4.SA", "TRPL4F.SA", "ISA.SA", "TRPL3.SA"]),
   ("VBBR3", ["VBBR3.SA", "BRDT3.SA"]),
   ("BRPR3", ["BRPR3.SA", "BRPR11.SA"]),
   ("SOMA3", ["SOMA3.SA"]),
   ("SQIA3", ["SQIA3.SA"])]

/-- `symbol in SYMBOL_ALIASES` / `SYMBOL_ALIASES[symbol]`. -/
def aliasesOf (s : String) : Option (List String) :=
  (SYMBOL_ALIASES.find? (fun p => p.1 == s)).map Prod.snd

/-- Result of the alias resolver of collect_history.py. -/
structure AliasResult (β : Type) where
  name : String
  bars : List β
  calls : List String
  deriving DecidableEq, Repr

/-- The alias `for` loop of `try_aliases` (collect_history.py): breaks
when the flag is cleared, skips an alias equal to the canonical symbol,
and returns the first alias fetch with a non-empty DataFrame. -/
def try_alias_loop {β : Type} (fetch : String → String × List β) (running : Bool)
    (symbol : String) : List String → Option (String × List β) × List String
  | [] => (none, [])
  | a :: rest =>
    if running = false then (none, [])
    else if a = symbol then try_alias_loop fetch running symbol rest
    else if (fetch a).2.isEmpty then
      let (r, calls) := try_alias_loop fetch running symbol rest
      (r, a :: calls)
    else (some ((fetch a).1, (fetch a).2), [a])

/-- `try_aliases` of collect_history.py: fetches the canonical symbol,
and when that is empty, the symbol is in `SYMBOL_ALIASES` and the flag
is still set, walks the alias list; on alias success it returns the
alias fetch's name and bars, otherwise the canonical fetch's name and
(empty) bars. -/
def try_aliases {β : Type} (fetch : String → String × List β) (running : Bool)
    (symbol : String) : AliasResult β :=
  if (fetch symbol).2.isEmpty && (aliasesOf symbol).isSome && running then
    match try_alias_loop fetch running symbol ((aliasesOf symbol).getD []) with
    | (some (an, ad), calls) => ⟨an, ad, symbol :: calls⟩
    | (none, calls) => ⟨(fetch symbol).1, (fetch symbol).2, symbol :: calls⟩
  else ⟨(fetch symbol).1, (fetch symbol).2, [symbol]⟩

/-- Result of the alias resolver of collect_history_curl.py. -/
structure AliasResultCurl (β : Type) where
  name : String
  df : Option (List β)
  calls : List String
  deriving DecidableEq, Repr

/-- The alias `for` loop of `try_aliases` (collect_history_curl.py):
an alias succeeds when its fetch returns a DataFrame that is neither
`None` nor empty. -/
def try_alias_loop_curl {β : Type} (fetch : String → Option (List β)) (running : Bool)
    (symbol : String) : List String → Option (List β) × List String
  | [] => (none, [])
  | a :: rest =>
    if running = false then (none, [])
    else if a = symbol then try_alias_loop_curl fetch running symbol rest
    else match fetch a with
      | some ad =>
        if ad.isEmpty then
          let (r, calls) := try_alias_loop_curl fetch running symbol rest
          (r, a :: calls)
        else (some ad, [a])
      | none =>
        let (r, calls) := try_alias_loop_curl fetch running symbol rest
        (r, a :: calls)

/-- The test `df is None or df.empty`. -/
def dfMissing {β : Type} : Option (List β) → Bool
  | none => true
  | some l => l.isEmpty

/-- `try_aliases` of collect_history_curl.py: `symbol_name` is bound to
the canonical symbol at the top and is what is returned as the name in
every branch, including alias success. -/
def try_aliases_curl {β : Type} (fetch : String → Option (List β)) (running : Bool)
    (symbol : String) : AliasResultCurl β :=
  if dfMissing (fetch symbol) && (aliasesOf symbol).isSome && running then
    match try_alias_loop_curl fetch running symbol ((aliasesOf symbol).getD []) with
    | (some ad, calls) => ⟨symbol, some ad, symbol :: calls⟩
    | (none, calls) => ⟨symbol, fetch symbol, symbol :: calls⟩
  else ⟨symbol, fetch symbol, [symbol]⟩

/-! ## Worker boundary and batch scheduler -/

/-- The `try/commit/except/rollback` scope of `process_symbol` (both
files): the fetch-then-persist unit `work` either succeeds, in which
case its state is committed, or raises, in which case `conn.rollback()`
restores the committed state and the exception stops at this boundary
(the function returns normally; the `Bool` records commit vs
rollback). -/
def process_symbol_tx {E : Type} (committed : DB) (work : DB → Except E DB) :
    DB × Bool :=
  match work committed with
  | .ok db' => (db', true)
  | .error _ => (committed, false)

/-- The fetch-then-persist unit of `process_symbol`: the fetch outcome
(which may be a raised exception) followed by `insert_stock` and
`insert_historical_data` with the returned id. -/
def symbolWork {E : Type} (symbol : String) (fetched : Except E (String × List PyRow))
    (db : DB) : Except E DB :=
  match fetched with
  | .error e => .error e
  | .ok (name, rows) =>
    let (sid, db1) := insert_stock db symbol name
    .ok (insert_historical_data db1 sid rows).1

/-- `symbols[i:i+batch_size]` slices of the `main` loop
(`for i in range(0, len(symbols), batch_size)`), with fuel bounded by
the list length (`batch_size` is positive in both files). -/
def chunksGo {α : Type} (bs : Nat) : Nat → List α → List (List α)
  | 0, _ => []
  | _, [] => []
  | fuel + 1, x :: xs => ((x :: xs).take bs) :: chunksGo bs fuel ((x :: xs).drop bs)

/-- The batch partition of the symbol universe. -/
def batches {α : Type} (bs : Nat) (l : List α) : List (List α) :=
  chunksGo bs l.length l

/-- The dispatch loop of `main` (both files): before each batch the
global flag is read; when cleared, no further batch is submitted
(`break`); a submitted batch is dispatched whole and awaited
(`concurrent.futures.wait`) before the next one starts. -/
def runBatches {α : Type} (running : Nat → Bool) : Nat → List (List α) → List (List α)
  | _, [] => []
  | i, b :: rest =>
    if running i = true then b :: runBatches running (i + 1) rest else []

/-- The batches actually dispatched in one run of `main`. -/
def scheduled {α : Type} (running : Nat → Bool) (bs : Nat) (symbols : List α) :
    List (List α) :=
  runBatches running 0 (batches bs symbols)

lemma suffix_get4_eq_A {s : List Char} (hsuf : sufSA <:+ s) (hlen : s.length = 5) :
    s.get? 4 = some 'A' := by
  obtain ⟨t, ht⟩ := hsuf
  subst ht
  have htl : t.length = 2 := by
    simpa [sufSA] using hlen
  rw [List.get?_append_right (by omega)]
  simp [htl, sufSA]

lemma format_symbol_of_suffix {s : List Char} (h : sufSA <:+ s) :
    format_symbol s = s := by
  simp [format_symbol, h]

lemma format_symbol_of_five_digit {s : List Char}
    (h : s.length = 5 ∧ (s.get? 4).elim false Char.isDigit = true) :
    format_symbol s = s ++ sufSA := by
  have hnsuf : ¬ sufSA <:+ s := by
    intro hsuf
    have := suffix_get4_eq_A hsuf h.1
    rw [this] at h
    simp [Char.isDigit] at h
  unfold format_symbol
  rw [if_neg hnsuf, if_pos h]

lemma format_symbol_of_other {s : List Char}
    (h1 : ¬ sufSA <:+ s)
    (h2 : ¬ (s.length = 5 ∧ (s.get? 4).elim false Char.isDigit = true)) :
    format_symbol s = s := by
  unfold format_symbol
  rw [if_neg h1, if_neg h2]

lemma mem_upsertBarRow {bars : List BarRow} {r b : BarRow}
    (hb : b ∈ upsertBarRow bars r) : b ∈ bars ∨ b = r := by
  unfold upsertBarRow at hb
  split at hb
  · rcases List.mem_map.mp hb with ⟨c, hc, hcb⟩
    by_cases h : barKey c = barKey r
    · right
      rw [if_pos h] at hcb
      exact hcb.symm
    · left
      rw [if_neg h] at hcb
      exact hcb ▸ hc
  · rcases List.mem_append.mp hb with h | h
    · exact Or.inl h
    · exact Or.inr (List.mem_singleton.mp h)

lemma mem_foldl_upsert {data : List BarRow} {bars : List BarRow} {b : BarRow}
    (hb : b ∈ data.foldl upsertBarRow bars) : b ∈ bars ∨ b ∈ data := by
  induction data generalizing bars with
  | nil => exact Or.inl hb
  | cons x xs ih =>
    rcases ih hb with h | h
    · rcases mem_upsertBarRow h with h' | h'
      · exact Or.inl h'
      · exact Or.inr (h' ▸ List.mem_cons_self x xs)
    · exact Or.inr (List.mem_cons_of_mem x h)

lemma buildRows_min_max {dates : List Nat} {q : Quote} {r : CurlRow}
    (hr : r ∈ buildRows dates q) : r.min_price = r.low ∧ r.max_price = r.high := by
  rcases List.mem_map.mp hr with ⟨i, _, rfl⟩
  exact ⟨rfl, rfl⟩

lemma process_yahoo_data_eq_some {d : ChartResult} {rows : List CurlRow}
    (h : process_yahoo_data d = some rows) :
    ∃ q, rows = (buildRows d.timestamp q).filter rowComplete := by
  have hexc : process_yahoo_data_exc d = .ok (some rows) := by
    unfold process_yahoo_data at h
    rcases hE : process_yahoo_data_exc d with e | r <;> rw [hE] at h <;> simp at h
    rw [h]
  unfold process_yahoo_data_exc at hexc
  rcases hq : d.quote with _ | ⟨_ | ⟨q, qs⟩⟩ <;> rw [hq] at hexc <;>
    simp only [bind, Except.bind, pure, Except.pure] at hexc
  · refine ⟨emptyQuote, ?_⟩
    split at hexc
    · simp at hexc
    · split at hexc
      · simp only [Except.ok.injEq, Option.some.injEq] at hexc
        exact hexc.symm
      · simp at hexc
  · exact absurd hexc (by simp)
  · refine ⟨q, ?_⟩
    split at hexc
    · simp at hexc
    · split at hexc
      · simp only [Except.ok.injEq, Option.some.injEq] at hexc
        exact hexc.symm
      · simp at hexc

lemma format_symbol_idem (s : List Char) :
    format_symbol (format_symbol s) = format_symbol s := by
  by_cases h1 : sufSA <:+ s
  · rw [format_symbol_of_suffix h1, format_symbol_of_suffix h1]
  · by_cases h2 : s.length = 5 ∧ (s.get? 4).elim false Char.isDigit = true
    · rw [format_symbol_of_five_digit h2]
      exact format_symbol_of_suffix (List.suffix_append s sufSA)
    · rw [format_symbol_of_other h1 h2, format_symbol_of_other h1 h2]

end Collect

open Collect

/-- C10: `format_symbol` returns any symbol already ending in ".SA"
unchanged, appends ".SA" to any 5-character symbol whose last character
is a digit, and returns every other symbol unchanged; consequently it is
idempotent: `format_symbol (format_symbol s) = format_symbol s` for
every string `s`. -/
theorem C10_format_symbol_cases_and_idem (s : List Char) :
    (sufSA <:+ s → format_symbol s = s) ∧
    (s.length = 5 ∧ (s.get? 4).elim false Char.isDigit = true →
      format_symbol s = s ++ sufSA) ∧
    (¬ sufSA <:+ s ∧ ¬ (s.length = 5 ∧ (s.get? 4).elim false Char.isDigit = true) →
      format_symbol s = s) ∧
    format_symbol (format_symbol s) = format_symbol s :=
  ⟨fun h => format_symbol_of_suffix h,
   fun h => format_symbol_of_five_digit h,
   fun h => format_symbol_of_other h.1 h.2,
   format_symbol_idem s⟩

/-- C10 witness: concrete evaluations.  "PETR4" gains the ".SA" suffix,
"PETR4.SA" is returned unchanged, and "ISA" (not 5 characters, no
suffix) is returned unchanged. -/
theorem C10_format_symbol_witness :
    format_symbol ['P', 'E', 'T', 'R', '4'] =
      ['P', 'E', 'T', 'R', '4'] ++ sufSA ∧
    format_symbol (['P', 'E', 'T', 'R', '4'] ++ sufSA) =
      ['P', 'E', 'T', 'R', '4'] ++ sufSA ∧
    format_symbol ['I', 'S', 'A'] = ['I', 'S', 'A'] :=
  ⟨(C10_format_symbol_cases_and_idem _).2.1 (by decide),
   (C10_format_symbol_cases_and_idem _).1 (by decide),
   (C10_format_symbol_cases_and_idem _).2.2.1 ⟨by decide, by decide⟩⟩

/-- C1 counterexample: the claim says `AlreadyCurrent` is returned
exactly when the last persisted date is today or later.  With
`today = 10` and last persisted date `9` (yesterday), the code computes
`start = 10 ≥ today` and returns `AlreadyCurrent`, although `9` is not
today or later. -/
theorem C1_counterexample :
    computeWindow 9 10 = SyncDecision.alreadyCurrent ∧ ¬ (9 ≥ 10) := by
  constructor
  · decide
  · decide

/-- C1 (amended): for an instrument with a persisted last date, the
sync-window computation returns `AlreadyCurrent` (skipping the symbol
before any fetch) exactly when the last persisted date plus one day is
today or later — that is, when the last persisted date is yesterday or
later; otherwise it proceeds with a window whose start is the last
persisted date plus one day and whose end is now (today). -/
theorem C1_computeWindow_amended (last today : Nat) :
    (computeWindow last today = SyncDecision.alreadyCurrent ↔ last + 1 ≥ today) ∧
    (last + 1 < today →
      computeWindow last today = SyncDecision.window (last + 1) today) := by
  constructor
  · constructor
    · intro h
      by_contra hlt
      simp [computeWindow, hlt] at h
    · intro h
      simp [computeWindow, h]
  · intro h
    have : ¬ (last + 1 ≥ today) := by omega
    simp [computeWindow, this]

/-- C1 (amended) witness: with `today = 10`, a last persisted date of
`9` is already current while a last persisted date of `7` yields the
fetch window `[8, 10]`. -/
theorem C1_computeWindow_amended_witness :
    computeWindow 9 10 = SyncDecision.alreadyCurrent ∧
    computeWindow 7 10 = SyncDecision.window 8 10 :=
  ⟨(C1_computeWindow_amended 9 10).1.mpr (by decide),
   (C1_computeWindow_amended 7 10).2 (by decide)⟩

/-- C2: the bar-persistence operation writes only bars whose open,
high, low, close and volume are all present, with volume > 0 and all
four prices > 0; every bar failing the validity invariant is excluded
before writing (a bar in the store after the call was either already
there or is the image of a valid input row), and the returned count is
exactly the number of valid input rows.  Stated for
`insert_historical_data` of both files, including the `df is None`
early return of the curl variant. -/
theorem C2_insert_filters_and_counts (db : DB) (sid : Nat) (df : List PyRow)
    (dfc : List CurlRow) :
    ((insert_historical_data db sid df).2 = df.countP (fun r => decide (validRow r))) ∧
    (∀ b ∈ (insert_historical_data db sid df).1.bars,
      b ∈ db.bars ∨ ∃ r ∈ df, validRow r ∧ b = toBarRow_py sid r) ∧
    ((insert_historical_data_curl db sid (some dfc)).2
      = dfc.countP (fun r => decide (validRow r.toPyRow))) ∧
    (∀ b ∈ (insert_historical_data_curl db sid (some dfc)).1.bars,
      b ∈ db.bars ∨ ∃ r ∈ dfc, validRow r.toPyRow ∧ b = toBarRow_curl sid r) ∧
    (insert_historical_data_curl db sid none = (db, 0)) := by
  refine ⟨?_, ?_, ?_, ?_, rfl⟩
  · simp [insert_historical_data, List.countP_eq_length_filter]
  · intro b hb
    simp only [insert_historical_data] at hb
    rcases mem_foldl_upsert hb with h | h
    · exact Or.inl h
    · rcases List.mem_map.mp h with ⟨r, hr, rfl⟩
      rcases List.mem_filter.mp hr with ⟨hrdf, hrv⟩
      exact Or.inr ⟨r, hrdf, of_decide_eq_true hrv, rfl⟩
  · simp [insert_historical_data_curl, List.countP_eq_length_filter]
  · intro b hb
    simp only [insert_historical_data_curl] at hb
    rcases mem_foldl_upsert hb with h | h
    · exact Or.inl h
    · rcases List.mem_map.mp h with ⟨r, hr, rfl⟩
      rcases List.mem_filter.mp hr with ⟨hrdf, hrv⟩
      exact Or.inr ⟨r, hrdf, of_decide_eq_true hrv, rfl⟩

/-- C2 witness: on a two-row DataFrame whose second row has volume 0,
exactly one row is counted, and the bar present in the store after the
call is the image of the valid row. -/
theorem C2_insert_filters_and_counts_witness :
    (insert_historical_data ⟨[], [], 0⟩ 7
      [⟨0, some 10, some 12, some 9, some 11, some 100⟩,
       ⟨1, some 10, some 12, some 9, some 11, some 0⟩]).2 = 1 ∧
    (toBarRow_py 7 ⟨0, some 10, some 12, some 9, some 11, some 100⟩ ∈
        (⟨[], [], 0⟩ : DB).bars ∨
      ∃ r ∈ [(⟨0, some 10, some 12, some 9, some 11, some 100⟩ : PyRow),
             ⟨1, some 10, some 12, some 9, some 11, some 0⟩],
        validRow r ∧
        toBarRow_py 7 ⟨0, some 10, some 12, some 9, some 11, some 100⟩
          = toBarRow_py 7 r) :=
  ⟨by
    rw [(C2_insert_filters_and_counts ⟨[], [], 0⟩ 7
      [⟨0, some 10, some 12, some 9, some 11, some 100⟩,
       ⟨1, some 10, some 12, some 9, some 11, some 0⟩] []).1]
    decide,
   (C2_insert_filters_and_counts ⟨[], [], 0⟩ 7
      [⟨0, some 10, some 12, some 9, some 11, some 100⟩,
       ⟨1, some 10, some 12, some 9, some 11, some 0⟩] []).2.1 _ (by decide)⟩

/-- C8: for every provider payload — including one whose timestamps
array is longer or shorter than its price arrays, or with missing
fields — the response-parsing step returns either a normalized record
set (every returned row has every field present, i.e. survives
`dropna`) or `None`; a quote whose `open` array length disagrees with
the timestamp array length always yields `None` (the raised
`ValueError` is caught by the enclosing `except`, which the totality of
`process_yahoo_data` over all payloads models). -/
theorem C8_process_yahoo_data_total (d : ChartResult) :
    (process_yahoo_data d = none ∨
      ∃ rows, process_yahoo_data d = some rows ∧ ∀ r ∈ rows, rowComplete r = true) ∧
    (∀ q qs, d.quote = some (q :: qs) → q.opens.length ≠ d.timestamp.length →
      process_yahoo_data d = none) := by
  constructor
  · rcases hP : process_yahoo_data d with _ | rows
    · exact Or.inl rfl
    · refine Or.inr ⟨rows, rfl, ?_⟩
      intro r hr
      rcases process_yahoo_data_eq_some hP with ⟨q, rfl⟩
      exact (List.mem_filter.mp hr).2
  · intro q qs hq hlen
    have hexc : process_yahoo_data_exc d = .ok none ∨
        process_yahoo_data_exc d
          = .error "ValueError: All arrays must be of the same length" := by
      unfold process_yahoo_data_exc
      rw [hq]
      simp only [bind, Except.bind, pure, Except.pure]
      by_cases h1 : ¬ (0 < d.timestamp.length ∧ 0 < q.opens.length)
      · left
        rw [if_pos h1]
      · right
        rw [if_neg h1, if_neg (by tauto)]
    unfold process_yahoo_data
    rcases hexc with h | h <;> rw [h]

/-- C8 witness: a desynchronized payload (three timestamps, one open
price) is parsed to `None` rather than raising. -/
theorem C8_process_yahoo_data_total_witness :
    process_yahoo_data ⟨[1, 2, 3], some [⟨[some 1], [], [], [], []⟩]⟩ = none :=
  (C8_process_yahoo_data_total ⟨[1, 2, 3], some [⟨[some 1], [], [], [], []⟩]⟩).2
    ⟨[some 1], [], [], [], []⟩ [] rfl (by decide)

/-- C9: every bar row handed to the persistence layer has `min_price`
equal to its low and `max_price` equal to its high: the normalization
step establishes the equality on every row it produces, and the bar
upsert of either file preserves it on every persisted row (the py
variant even re-derives the two columns from `Low`/`High` when building
its tuples). -/
theorem C9_min_max_denormalization :
    (∀ (d : ChartResult) (rows : List CurlRow), process_yahoo_data d = some rows →
      ∀ r ∈ rows, r.min_price = r.low ∧ r.max_price = r.high) ∧
    (∀ (db : DB) (sid : Nat) (rows : List CurlRow),
      (∀ r ∈ rows, r.min_price = r.low ∧ r.max_price = r.high) →
      (∀ b ∈ db.bars, b.minp = b.low ∧ b.maxp = b.high) →
      ∀ b ∈ (insert_historical_data_curl db sid (some rows)).1.bars,
        b.minp = b.low ∧ b.maxp = b.high) ∧
    (∀ (db : DB) (sid : Nat) (df : List PyRow),
      (∀ b ∈ db.bars, b.minp = b.low ∧ b.maxp = b.high) →
      ∀ b ∈ (insert_historical_data db sid df).1.bars,
        b.minp = b.low ∧ b.maxp = b.high) := by
  refine ⟨?_, ?_, ?_⟩
  · intro d rows hP r hr
    rcases process_yahoo_data_eq_some hP with ⟨q, rfl⟩
    exact buildRows_min_max (List.mem_filter.mp hr).1
  · intro db sid rows hrows hdb b hb
    simp only [insert_historical_data_curl] at hb
    rcases mem_foldl_upsert hb with h | h
    · exact hdb b h
    · rcases List.mem_map.mp h with ⟨r, hr, rfl⟩
      have hr' := (List.mem_filter.mp hr).1
      exact ⟨(hrows r hr').1, (hrows r hr').2⟩
  · intro db sid df hdb b hb
    simp only [insert_historical_data] at hb
    rcases mem_foldl_upsert hb with h | h
    · exact hdb b h
    · rcases List.mem_map.mp h with ⟨r, _, rfl⟩
      exact ⟨rfl, rfl⟩

/-- C9 witness: the bar written for a concrete valid row into an empty
store satisfies the `min_price = low`, `max_price = high` invariant. -/
theorem C9_min_max_denormalization_witness :
    (toBarRow_py 3 ⟨0, some 10, some 12, some 9, some 11, some 100⟩).minp
      = (toBarRow_py 3 ⟨0, some 10, some 12, some 9, some 11, some 100⟩).low ∧
    (toBarRow_py 3 ⟨0, some 10, some 12, some 9, some 11, some 100⟩).maxp
      = (toBarRow_py 3 ⟨0, some 10, some 12, some 9, some 11, some 100⟩).high :=
  C9_min_max_denormalization.2.2 ⟨[], [], 0⟩ 3
    [⟨0, some 10, some 12, some 9, some 11, some 100⟩]
    (fun b hb => absurd hb (List.not_mem_nil b))
    (toBarRow_py 3 ⟨0, some 10, some 12, some 9, some 11, some 100⟩)
    (by decide)

lemma map_eq_self_of {α : Type} {f : α → α} :
    ∀ (l : List α), (∀ x ∈ l, f x = x) → l.map f = l := by
  intro l
  induction l with
  | nil => intro _; rfl
  | cons x xs ih =>
    intro h
    simp only [List.map_cons]
    rw [h x (List.mem_cons_self x xs), ih (fun y hy => h y (List.mem_cons_of_mem x hy))]

lemma find?_holds {α : Type} {p : α → Bool} :
    ∀ {l : List α} {e : α}, l.find? p = some e → p e = true := by
  intro l
  induction l with
  | nil => intro e h; simp [List.find?] at h
  | cons x xs ih =>
    intro e h
    by_cases hx : p x
    · simp [List.find?, hx] at h
      rw [← h]
      exact hx
    · simp only [List.find?, Bool.not_eq_true] at hx h
      rw [hx] at h
      exact ih h

lemma find?_none_all {α : Type} {p : α → Bool} :
    ∀ {l : List α}, l.find? p = none → ∀ x ∈ l, p x = false := by
  intro l
  induction l with
  | nil => intro _ x hx; exact absurd hx (List.not_mem_nil x)
  | cons y ys ih =>
    intro h x hx
    by_cases hy : p y
    · simp [List.find?, hy] at h
    · simp only [Bool.not_eq_true] at hy
      simp only [List.find?, hy] at h
      rcases List.mem_cons.mp hx with rfl | hx'
      · exact hy
      · exact ih h x hx'

lemma find?_append_none {α : Type} {p : α → Bool} {l₁ l₂ : List α}
    (h : l₁.find? p = none) : (l₁ ++ l₂).find? p = l₂.find? p := by
  induction l₁ with
  | nil => rfl
  | cons x xs ih =>
    by_cases hx : p x
    · simp [List.find?, hx] at h
    · simp only [Bool.not_eq_true] at hx
      simp only [List.find?, hx] at h
      simp only [List.cons_append, List.find?, hx]
      exact ih h

lemma stock_find_map (stocks : List StockRow) (s n : String) :
    (stocks.map (fun x => if x.symbol = s then { x with name := n } else x)).find?
        (fun e => e.symbol == s)
      = (stocks.find? (fun e => e.symbol == s)).map
          (fun x => if x.symbol = s then { x with name := n } else x) := by
  induction stocks with
  | nil => rfl
  | cons x xs ih =>
    by_cases hx : x.symbol = s
    · have hxb : (x.symbol == s) = true := by simp [hx]
      simp [List.find?, hx, hxb]
    · have hxb : (x.symbol == s) = false := by simp [hx]
      simp only [List.map_cons, if_neg hx, List.find?, hxb]
      exact ih

lemma map_update_idem (stocks : List StockRow) (s n : String) :
    ((stocks.map (fun x => if x.symbol = s then { x with name := n } else x)).map
        (fun x => if x.symbol = s then { x with name := n } else x))
      = stocks.map (fun x => if x.symbol = s then { x with name := n } else x) := by
  rw [List.map_map]
  apply List.map_congr_left
  intro x _
  by_cases hx : x.symbol = s
  · simp [hx]
  · simp [hx]

lemma insert_stock_eq_of_find_some {db : DB} {s : String} {e : StockRow}
    (hf : db.stocks.find? (fun x => x.symbol == s) = some e) (n : String) :
    insert_stock db s n
      = (e.id, { db with stocks := db.stocks.map (fun x => if x.symbol = s then { x with name := n } else x) }) := by
  unfold insert_stock
  rw [hf]

lemma insert_stock_eq_of_find_none {db : DB} {s : String}
    (hf : db.stocks.find? (fun x => x.symbol == s) = none) (n : String) :
    insert_stock db s n
      = (db.nextId, { db with stocks := db.stocks ++ [⟨db.nextId, s, n⟩], nextId := db.nextId + 1 }) := by
  unfold insert_stock
  rw [hf]

lemma insert_stock_second (db : DB) (s n : String) (B : List BarRow) :
    insert_stock ⟨(insert_stock db s n).2.stocks, B, (insert_stock db s n).2.nextId⟩ s n
      = ((insert_stock db s n).1,
         ⟨(insert_stock db s n).2.stocks, B, (insert_stock db s n).2.nextId⟩) := by
  rcases hf : db.stocks.find? (fun x => x.symbol == s) with _ | e
  · rw [insert_stock_eq_of_find_none hf n]
    have h2 : ((db.stocks ++ [⟨db.nextId, s, n⟩] : List StockRow).find?
        (fun x => x.symbol == s)) = some ⟨db.nextId, s, n⟩ := by
      rw [find?_append_none hf]
      simp [List.find?]
    rw [insert_stock_eq_of_find_some h2 n]
    have h3 : (db.stocks ++ [(⟨db.nextId, s, n⟩ : StockRow)]).map
        (fun x => if x.symbol = s then { x with name := n } else x)
          = db.stocks ++ [⟨db.nextId, s, n⟩] := by
      rw [List.map_append]
      have h4 : db.stocks.map (fun x => if x.symbol = s then { x with name := n } else x)
          = db.stocks := by
        apply map_eq_self_of
        intro x hx
        have := find?_none_all hf x hx
        have hxs : ¬ x.symbol = s := by
          intro hcontra
          simp [hcontra] at this
        rw [if_neg hxs]
      rw [h4]
      simp
    simp only [h3]
  · have hsym : e.symbol = s := by
      have := find?_holds hf
      simpa using this
    rw [insert_stock_eq_of_find_some hf n]
    have h2 : ((db.stocks.map (fun x => if x.symbol = s then { x with name := n } else x)).find?
        (fun x => x.symbol == s)) = some { e with name := n } := by
      rw [stock_find_map, hf]
      simp [hsym]
    rw [insert_stock_eq_of_find_some h2 n]
    simp only [map_update_idem]

lemma upsert_settled (bars : List BarRow) (r : BarRow) :
    (∃ b ∈ upsertBarRow bars r, barKey b = barKey r) ∧
    (∀ b ∈ upsertBarRow bars r, barKey b = barKey r → b = r) := by
  unfold upsertBarRow
  split
  · next hex =>
    obtain ⟨c, hc, hk⟩ := hex
    constructor
    · exact ⟨r, List.mem_map.mpr ⟨c, hc, by rw [if_pos hk]⟩, rfl⟩
    · intro b hb _
      rcases List.mem_map.mp hb with ⟨c', hc', hcb⟩
      by_cases h' : barKey c' = barKey r
      · rw [if_pos h'] at hcb
        exact hcb.symm
      · rw [if_neg h'] at hcb
        exact absurd (hcb ▸ ‹barKey b = barKey r›) h'
  · next hex =>
    constructor
    · exact ⟨r, List.mem_append.mpr (Or.inr (List.mem_singleton.mpr rfl)), rfl⟩
    · intro b hb hk
      rcases List.mem_append.mp hb with h | h
      · exact absurd ⟨b, h, hk⟩ hex
      · exact List.mem_singleton.mp h

lemma upsert_of_settled {bars : List BarRow} {r : BarRow}
    (hex : ∃ b ∈ bars, barKey b = barKey r)
    (hall : ∀ b ∈ bars, barKey b = barKey r → b = r) :
    upsertBarRow bars r = bars := by
  unfold upsertBarRow
  rw [if_pos hex]
  apply map_eq_self_of
  intro x hx
  by_cases h : barKey x = barKey r
  · rw [if_pos h]
    exact (hall x hx h).symm
  · rw [if_neg h]

lemma settled_upsert_ne {bars : List BarRow} {r s : BarRow}
    (hk : barKey s ≠ barKey r)
    (hex : ∃ b ∈ bars, barKey b = barKey r)
    (hall : ∀ b ∈ bars, barKey b = barKey r → b = r) :
    (∃ b ∈ upsertBarRow bars s, barKey b = barKey r) ∧
    (∀ b ∈ upsertBarRow bars s, barKey b = barKey r → b = r) := by
  unfold upsertBarRow
  split
  · constructor
    · obtain ⟨b0, hb0, hk0⟩ := hex
      have hb0s : ¬ barKey b0 = barKey s := by
        intro hcontra
        exact hk (hcontra ▸ hk0)
      exact ⟨b0, List.mem_map.mpr ⟨b0, hb0, by rw [if_neg hb0s]⟩, hk0⟩
    · intro b hb hkb
      rcases List.mem_map.mp hb with ⟨c, hc, hcb⟩
      by_cases h' : barKey c = barKey s
      · rw [if_pos h'] at hcb
        exact absurd (hcb ▸ hkb) hk
      · rw [if_neg h'] at hcb
        exact hall b (hcb ▸ hc) hkb
  · constructor
    · obtain ⟨b0, hb0, hk0⟩ := hex
      exact ⟨b0, List.mem_append.mpr (Or.inl hb0), hk0⟩
    · intro b hb hkb
      rcases List.mem_append.mp hb with h | h
      · exact hall b h hkb
      · rw [List.mem_singleton.mp h] at hkb
        exact absurd hkb hk

lemma settled_foldl_ne {data : List BarRow} {r : BarRow} :
    ∀ {bars : List BarRow},
    (∀ s ∈ data, barKey s ≠ barKey r) →
    (∃ b ∈ bars, barKey b = barKey r) →
    (∀ b ∈ bars, barKey b = barKey r → b = r) →
    (∃ b ∈ data.foldl upsertBarRow bars, barKey b = barKey r) ∧
    (∀ b ∈ data.foldl upsertBarRow bars, barKey b = barKey r → b = r) := by
  induction data with
  | nil => intro bars _ hex hall; exact ⟨hex, hall⟩
  | cons x xs ih =>
    intro bars hd hex hall
    have hx : barKey x ≠ barKey r := hd x (List.mem_cons_self x xs)
    have h1 := settled_upsert_ne hx hex hall
    exact ih (fun s hs => hd s (List.mem_cons_of_mem x hs)) h1.1 h1.2

lemma settled_foldl_mem {data : List BarRow} {r : BarRow} :
    ∀ {bars : List BarRow}, r ∈ data → (data.map barKey).Nodup →
    (∃ b ∈ data.foldl upsertBarRow bars, barKey b = barKey r) ∧
    (∀ b ∈ data.foldl upsertBarRow bars, barKey b = barKey r → b = r) := by
  induction data with
  | nil => intro bars hr _; exact absurd hr (List.not_mem_nil r)
  | cons x xs ih =>
    intro bars hr hnd
    rcases List.mem_cons.mp hr with rfl | hr'
    · simp only [List.foldl_cons]
      have h1 := upsert_settled bars r
      refine settled_foldl_ne ?_ h1.1 h1.2
      intro s hs hcontra
      have hmem : barKey r ∈ xs.map barKey := List.mem_map.mpr ⟨s, hs, hcontra⟩
      exact (List.nodup_cons.mp (by simpa using hnd)).1 hmem
    · simp only [List.foldl_cons]
      exact ih hr' (List.nodup_cons.mp (by simpa using hnd)).2

lemma foldl_of_all_settled {data : List BarRow} :
    ∀ {bars : List BarRow},
    (∀ r ∈ data, (∃ b ∈ bars, barKey b = barKey r) ∧
      (∀ b ∈ bars, barKey b = barKey r → b = r)) →
    data.foldl upsertBarRow bars = bars := by
  induction data with
  | nil => intro bars _; rfl
  | cons x xs ih =>
    intro bars h
    have hx := h x (List.mem_cons_self x xs)
    have hup : upsertBarRow bars x = bars := upsert_of_settled hx.1 hx.2
    simp only [List.foldl_cons, hup]
    exact ih (fun r hr => h r (List.mem_cons_of_mem x hr))

lemma foldl_upsert_idem {data bars : List BarRow}
    (hnd : (data.map barKey).Nodup) :
    data.foldl upsertBarRow (data.foldl upsertBarRow bars) = data.foldl upsertBarRow bars :=
  foldl_of_all_settled (fun r hr => settled_foldl_mem hr hnd)

lemma insert_stock_bars (db : DB) (s n : String) :
    (insert_stock db s n).2.bars = db.bars := by
  rcases hf : db.stocks.find? (fun x => x.symbol == s) with _ | e
  · rw [insert_stock_eq_of_find_none hf n]
  · rw [insert_stock_eq_of_find_some hf n]

lemma upsert_keys_nodup {bars : List BarRow} {r : BarRow}
    (h : (bars.map barKey).Nodup) : ((upsertBarRow bars r).map barKey).Nodup := by
  unfold upsertBarRow
  split
  · next hex =>
    have heq : ((bars.map (fun b => if barKey b = barKey r then r else b)).map barKey)
        = bars.map barKey := by
      rw [List.map_map]
      apply List.map_congr_left
      intro b _
      by_cases hb : barKey b = barKey r
      · simp only [Function.comp_apply, if_pos hb]
        exact hb.symm
      · simp only [Function.comp_apply, if_neg hb]
    rw [heq]
    exact h
  · next hex =>
    rw [List.map_append]
    refine List.Nodup.append h (List.nodup_singleton _) ?_
    intro a ha hb
    have hab : a = barKey r := by simpa using hb
    obtain ⟨b, hbmem, hbk⟩ := List.mem_map.mp ha
    exact hex ⟨b, hbmem, by rw [hbk, hab]⟩

lemma foldl_keys_nodup :
    ∀ (data : List BarRow) {bars : List BarRow}, (bars.map barKey).Nodup →
    ((data.foldl upsertBarRow bars).map barKey).Nodup := by
  intro data
  induction data with
  | nil => intro bars h; exact h
  | cons x xs ih =>
    intro bars h
    simp only [List.foldl_cons]
    exact ih (upsert_keys_nodup h)

lemma insert_stock_symbols_nodup (db : DB) (s n : String)
    (h : (db.stocks.map StockRow.symbol).Nodup) :
    ((insert_stock db s n).2.stocks.map StockRow.symbol).Nodup := by
  rcases hf : db.stocks.find? (fun x => x.symbol == s) with _ | e
  · rw [insert_stock_eq_of_find_none hf n]
    dsimp only
    rw [List.map_append]
    refine List.Nodup.append h (List.nodup_singleton _) ?_
    intro a ha hb
    have hab : a = s := by simpa using hb
    obtain ⟨x, hx, hxs⟩ := List.mem_map.mp ha
    have hfalse := find?_none_all hf x hx
    rw [hxs, hab] at hfalse
    simp at hfalse
  · rw [insert_stock_eq_of_find_some hf n]
    dsimp only
    have heq : ((db.stocks.map (fun x => if x.symbol = s then { x with name := n } else x)).map
        StockRow.symbol) = db.stocks.map StockRow.symbol := by
      rw [List.map_map]
      apply List.map_congr_left
      intro x _
      by_cases hx : x.symbol = s <;> simp [hx]
    rw [heq]
    exact h

/-- C3: running the instrument upsert followed by the bar upsert a
second time with identical input leaves the stored row set identical to
the state after the first run (conflicts on the natural keys update in
place, every field keeps the same value), for both files' persistence
sequences; moreover the natural-key uniqueness of both tables (no
duplicate symbol rows, no duplicate `(stock_id, date)` rows) is
preserved.  The date-uniqueness hypotheses restrict to inputs on which
the single-statement `execute_values` upsert is defined (PostgreSQL
rejects two rows with the same conflict key in one upsert). -/
theorem C3_upsert_idempotence (db : DB) (s n : String) (df : List PyRow)
    (dfc : List CurlRow)
    (hnd : ((df.filter (fun r => decide (validRow r))).map PyRow.date).Nodup)
    (hndc : ((dfc.filter (fun r => decide (validRow r.toPyRow))).map
      (fun r => r.date)).Nodup) :
    runSync (runSync db s n df) s n df = runSync db s n df ∧
    runSyncCurl (runSyncCurl db s n (some dfc)) s n (some dfc)
      = runSyncCurl db s n (some dfc) ∧
    ((db.bars.map barKey).Nodup → ((runSync db s n df).bars.map barKey).Nodup) ∧
    ((db.stocks.map StockRow.symbol).Nodup →
      ((runSync db s n df).stocks.map StockRow.symbol).Nodup) := by
  have hkeys : ((((df.filter (fun r => decide (validRow r))).map
      (toBarRow_py (insert_stock db s n).1)).map barKey)).Nodup := by
    rw [List.map_map]
    have heq : ((df.filter (fun r => decide (validRow r))).map
        (barKey ∘ toBarRow_py (insert_stock db s n).1))
        = ((df.filter (fun r => decide (validRow r))).map PyRow.date).map
            (fun d => ((insert_stock db s n).1, d)) := by
      rw [List.map_map]
      rfl
    rw [heq]
    exact List.Nodup.map (fun a b hab => by simpa using hab) hnd
  have hkeysc : ((((dfc.filter (fun r => decide (validRow r.toPyRow))).map
      (toBarRow_curl (insert_stock db s n).1)).map barKey)).Nodup := by
    rw [List.map_map]
    have heq : ((dfc.filter (fun r => decide (validRow r.toPyRow))).map
        (barKey ∘ toBarRow_curl (insert_stock db s n).1))
        = ((dfc.filter (fun r => decide (validRow r.toPyRow))).map
            (fun r => r.date)).map (fun d => ((insert_stock db s n).1, d)) := by
      rw [List.map_map]
      rfl
    rw [heq]
    exact List.Nodup.map (fun a b hab => by simpa using hab) hndc
  refine ⟨?_, ?_, ?_, ?_⟩
  · have e1 : runSync db s n df
        = ⟨(insert_stock db s n).2.stocks,
           ((df.filter (fun r => decide (validRow r))).map
             (toBarRow_py (insert_stock db s n).1)).foldl upsertBarRow
             (insert_stock db s n).2.bars,
           (insert_stock db s n).2.nextId⟩ := rfl
    rw [e1]
    have h2 := insert_stock_second db s n
      (((df.filter (fun r => decide (validRow r))).map
        (toBarRow_py (insert_stock db s n).1)).foldl upsertBarRow
        (insert_stock db s n).2.bars)
    have e2 : ∀ (dbx : DB), runSync dbx s n df
        = ⟨(insert_stock dbx s n).2.stocks,
           ((df.filter (fun r => decide (validRow r))).map
             (toBarRow_py (insert_stock dbx s n).1)).foldl upsertBarRow
             (insert_stock dbx s n).2.bars,
           (insert_stock dbx s n).2.nextId⟩ := fun _ => rfl
    rw [e2, h2]
    dsimp only
    congr 1
    exact foldl_upsert_idem hkeys
  · have e1 : runSyncCurl db s n (some dfc)
        = ⟨(insert_stock db s n).2.stocks,
           ((dfc.filter (fun r => decide (validRow r.toPyRow))).map
             (toBarRow_curl (insert_stock db s n).1)).foldl upsertBarRow
             (insert_stock db s n).2.bars,
           (insert_stock db s n).2.nextId⟩ := rfl
    rw [e1]
    have h2 := insert_stock_second db s n
      (((dfc.filter (fun r => decide (validRow r.toPyRow))).map
        (toBarRow_curl (insert_stock db s n).1)).foldl upsertBarRow
        (insert_stock db s n).2.bars)
    have e2 : ∀ (dbx : DB), runSyncCurl dbx s n (some dfc)
        = ⟨(insert_stock dbx s n).2.stocks,
           ((dfc.filter (fun r => decide (validRow r.toPyRow))).map
             (toBarRow_curl (insert_stock dbx s n).1)).foldl upsertBarRow
             (insert_stock dbx s n).2.bars,
           (insert_stock dbx s n).2.nextId⟩ := fun _ => rfl
    rw [e2, h2]
    dsimp only
    congr 1
    exact foldl_upsert_idem hkeysc
  · intro hdb
    have e1 : (runSync db s n df).bars
        = ((df.filter (fun r => decide (validRow r))).map
            (toBarRow_py (insert_stock db s n).1)).foldl upsertBarRow
            (insert_stock db s n).2.bars := rfl
    rw [e1]
    apply foldl_keys_nodup
    rw [insert_stock_bars]
    exact hdb
  · intro hst
    have e1 : (runSync db s n df).stocks = (insert_stock db s n).2.stocks := rfl
    rw [e1]
    exact insert_stock_symbols_nodup db s n hst

/-- C3 witness: a concrete run against an empty store with one valid
bar row; the second identical run leaves the store unchanged. -/
theorem C3_upsert_idempotence_witness :
    runSync (runSync ⟨[], [], 0⟩ "PETR4" "PETROBRAS"
        [⟨5, some 10, some 12, some 9, some 11, some 100⟩]) "PETR4" "PETROBRAS"
        [⟨5, some 10, some 12, some 9, some 11, some 100⟩]
      = runSync ⟨[], [], 0⟩ "PETR4" "PETROBRAS"
        [⟨5, some 10, some 12, some 9, some 11, some 100⟩] :=
  (C3_upsert_idempotence ⟨[], [], 0⟩ "PETR4" "PETROBRAS"
    [⟨5, some 10, some 12, some 9, some 11, some 100⟩] []
    (by decide) (by decide)).1

/-- C7: any exception raised during a symbol's fetch-then-persist
sequence is caught at the worker boundary of `process_symbol`: the
transaction for that instrument is rolled back — the committed store is
exactly the pre-call store, so the instrument row and its bars never
commit partially — and the call returns normally (the exception does
not propagate); on success the whole unit (instrument row plus valid
bars) commits together. -/
theorem C7_worker_boundary_containment :
    ∀ (E : Type) (db : DB) (work : DB → Except E DB),
      ((∃ e, work db = .error e ∧ process_symbol_tx db work = (db, false)) ∨
       (∃ db', work db = .ok db' ∧ process_symbol_tx db work = (db', true))) ∧
      (∀ (symbol name : String) (rows : List PyRow),
        process_symbol_tx db (symbolWork (E := E) symbol (.ok (name, rows)))
          = (runSync db symbol name rows, true)) ∧
      (∀ (symbol : String) (e : E),
        process_symbol_tx db (symbolWork symbol (.error e)) = (db, false)) := by
  intro E db work
  refine ⟨?_, ?_, ?_⟩
  · rcases hw : work db with e | db'
    · exact Or.inl ⟨e, rfl, by unfold process_symbol_tx; rw [hw]⟩
    · exact Or.inr ⟨db', rfl, by unfold process_symbol_tx; rw [hw]⟩
  · intro symbol name rows
    rfl
  · intro symbol e
    rfl

lemma pyDelay_pow (k : Nat) : pyDelay k = 2 ^ k := by
  induction k with
  | zero => rfl
  | succ k ih => rw [pyDelay, ih, pow_succ, mul_comm]

lemma pyDelay_succ_of_pos {k : Nat} (hk : 1 ≤ k) :
    pyDelay k = 2 * pyDelay (k - 1) := by
  cases k with
  | zero => exact absurd hk (by omega)
  | succ k' => rfl

lemma pyLoop_sleeps_shape {α : Type} (f : Nat → Option α) (j : Nat → ℚ) :
    ∀ (R k : Nat) (delay : ℚ) (acc : List ℚ) (tr : List Nat), 1 ≤ k →
    delay = pyDelay (k - 1) →
    ∃ m, (pyLoop f j (fun _ => true) R k delay acc tr).sleeps
      = acc ++ (List.range m).map (fun i => pyDelay (k - 1 + i) * j (k + i)) := by
  intro R
  induction R with
  | zero =>
    intro k delay acc tr hk hd
    exact ⟨0, by simp [pyLoop]⟩
  | succ R ih =>
    intro k delay acc tr hk hd
    have hkpos : 0 < k := hk
    have step : pyLoop f j (fun _ => true) (R + 1) k delay acc tr
        = match f k with
          | some a => ⟨some a, acc ++ [delay * j k], tr ++ [k]⟩
          | none => pyLoop f j (fun _ => true) R (k + 1) (2 * delay)
              (acc ++ [delay * j k]) (tr ++ [k]) := by
      simp [pyLoop, hkpos]
    rw [step]
    rcases hf : f k with _ | a
    · dsimp only
      have hd2 : 2 * delay = pyDelay ((k + 1) - 1) := by
        rw [hd, Nat.add_sub_cancel, ← pyDelay_succ_of_pos hk]
      obtain ⟨m, hm⟩ := ih (k + 1) (2 * delay) (acc ++ [delay * j k]) (tr ++ [k])
        (by omega) hd2
      refine ⟨m + 1, ?_⟩
      rw [hm, hd]
      rw [List.range_succ_eq_map, List.map_cons, List.map_map]
      have hfun : ((fun i => pyDelay (k - 1 + i) * j (k + i)) ∘ Nat.succ)
          = (fun i => pyDelay ((k + 1) - 1 + i) * j ((k + 1) + i)) := by
        funext i
        simp only [Function.comp_apply]
        congr 2 <;> omega
      rw [hfun]
      simp
    · refine ⟨1, ?_⟩
      rw [hd]
      have h1 : List.range 1 = [0] := rfl
      rw [h1]
      simp

lemma curlLoop_sleeps_shape {α : Type} (g : Nat → AttemptOut α) (u : Nat → ℚ) :
    ∀ (R k : Nat) (acc : List ℚ) (tr : List Nat), 1 ≤ k →
    ∃ m, (curlLoop g u (fun _ => true) R k acc tr).sleeps
      = acc ++ (List.range m).map (fun i => (2 : ℚ) ^ (k + i) + u (k + i)) := by
  intro R
  induction R with
  | zero =>
    intro k acc tr hk
    exact ⟨0, by simp [curlLoop]⟩
  | succ R ih =>
    intro k acc tr hk
    have hkpos : 0 < k := hk
    have step : curlLoop g u (fun _ => true) (R + 1) k acc tr
        = match g k with
          | .success a => ⟨some a, acc ++ [(2 : ℚ) ^ k + u k], tr ++ [k]⟩
          | .noData => ⟨none, acc ++ [(2 : ℚ) ^ k + u k], tr ++ [k]⟩
          | .retryable => curlLoop g u (fun _ => true) R (k + 1)
              (acc ++ [(2 : ℚ) ^ k + u k]) (tr ++ [k]) := by
      simp [curlLoop, hkpos]
    rw [step]
    have hone : ∀ (x : List ℚ), x ++ [(2 : ℚ) ^ k + u k]
        = x ++ (List.range 1).map (fun i => (2 : ℚ) ^ (k + i) + u (k + i)) := by
      intro x
      have h1 : List.range 1 = [0] := rfl
      rw [h1]
      simp
    rcases hg : g k with a | _ | _
    · exact ⟨1, by dsimp only; rw [hone]⟩
    · exact ⟨1, by dsimp only; rw [hone]⟩
    · dsimp only
      obtain ⟨m, hm⟩ := ih (k + 1) (acc ++ [(2 : ℚ) ^ k + u k]) (tr ++ [k]) (by omega)
      refine ⟨m + 1, ?_⟩
      rw [hm]
      rw [List.range_succ_eq_map, List.map_cons, List.map_map]
      have hfun : ((fun i => (2 : ℚ) ^ (k + i) + u (k + i)) ∘ Nat.succ)
          = (fun i => (2 : ℚ) ^ ((k + 1) + i) + u ((k + 1) + i)) := by
        funext i
        simp only [Function.comp_apply]
        congr 2 <;> omega
      rw [hfun]
      simp

lemma collect_loop_sleeps {α : Type} (f : Nat → Option α) (j : Nat → ℚ) (R : Nat) :
    ∃ m, (collect_stock_data_loop f j (fun _ => true) R).sleeps
      = (List.range m).map (fun i => pyDelay i * j (i + 1)) := by
  unfold collect_stock_data_loop
  cases R with
  | zero => exact ⟨0, by simp [pyLoop]⟩
  | succ R =>
    have step : pyLoop f j (fun _ => true) (R + 1) 0 1 [] []
        = match f 0 with
          | some a => ⟨some a, [], [0]⟩
          | none => pyLoop f j (fun _ => true) R 1 1 [] [0] := by
      simp [pyLoop]
    rw [step]
    rcases hf : f 0 with _ | a
    · dsimp only
      obtain ⟨m, hm⟩ := pyLoop_sleeps_shape f j R 1 1 [] [0] le_rfl (by rfl)
      refine ⟨m, ?_⟩
      rw [hm]
      simp only [List.nil_append]
      apply List.map_congr_left
      intro i _
      congr 2 <;> omega
    · exact ⟨0, by simp⟩

lemma get_loop_sleeps {α : Type} (g : Nat → AttemptOut α) (u : Nat → ℚ) (R : Nat) :
    ∃ m, (get_stock_history_loop g u (fun _ => true) R).sleeps
      = (List.range m).map (fun i => (2 : ℚ) ^ (i + 1) + u (i + 1)) := by
  unfold get_stock_history_loop
  cases R with
  | zero => exact ⟨0, by simp [curlLoop]⟩
  | succ R =>
    have step : curlLoop g u (fun _ => true) (R + 1) 0 [] []
        = match g 0 with
          | .success a => ⟨some a, [], [0]⟩
          | .noData => ⟨none, [], [0]⟩
          | .retryable => curlLoop g u (fun _ => true) R 1 [] [0] := by
      simp [curlLoop]
    rw [step]
    rcases hg : g 0 with a | _ | _
    · exact ⟨0, by simp⟩
    · exact ⟨0, by simp⟩
    · dsimp only
      obtain ⟨m, hm⟩ := curlLoop_sleeps_shape g u R 1 [] [0] le_rfl
      refine ⟨m, ?_⟩
      rw [hm]
      simp only [List.nil_append]
      apply List.map_congr_left
      intro i _
      congr 2 <;> omega

/-- C5 counterexample: the claim says the delay slept before retry `k`
equals `base * 2^(k-1) * uniform(0.5, 1.5)` with base 1s in the retry
controller, citing both files.  In `get_stock_history`
(collect_history_curl.py) the sleep before retry 1 is
`2 ** 1 + uniform(0, 1)`: with a zero jitter draw it equals 2, which no
jitter value in [0.5, 1.5] times `1 * 2^(1-1)` can produce. -/
theorem C5_counterexample :
    (get_stock_history_loop (fun _ => (AttemptOut.retryable : AttemptOut Unit))
      (fun _ => 0) (fun _ => true) 3).sleeps.head? = some 2 ∧
    (1 : ℚ) * 2 ^ ((1 : Nat) - 1) * (3 / 2) < 2 := by
  constructor
  · norm_num [get_stock_history_loop, curlLoop]
  · norm_num

/-- C5 (amended): in `collect_stock_data` (collect_history.py) the
sleep before retry `k` is `pyDelay (k-1) * jitter k` with
`pyDelay (k-1) = 2^(k-1)` and `jitter k = uniform(0.5, 1.5)` — the
claimed formula; in `get_stock_history` (collect_history_curl.py) it is
instead `2^k + uniform(0, 1)` (additive jitter, exponent `k`).  In both
loops the pre-jitter delays are strictly increasing and every actual
delay is bounded below by `base * 2^(k-1) * 0.5`. -/
theorem C5_backoff_amended {α β : Type} (f : Nat → Option α) (g : Nat → AttemptOut β)
    (j u : Nat → ℚ) (R : Nat)
    (hj : ∀ k, 1 / 2 ≤ j k ∧ j k ≤ 3 / 2) (hu : ∀ k, 0 ≤ u k ∧ u k ≤ 1) :
    (∃ m, (collect_stock_data_loop f j (fun _ => true) R).sleeps
      = (List.range m).map (fun i => pyDelay i * j (i + 1))) ∧
    (∀ i, pyDelay i = 2 ^ i) ∧
    (∀ i, pyDelay i < pyDelay (i + 1)) ∧
    (∀ i, pyDelay i * (1 / 2) ≤ pyDelay i * j (i + 1)) ∧
    (∃ m, (get_stock_history_loop g u (fun _ => true) R).sleeps
      = (List.range m).map (fun i => (2 : ℚ) ^ (i + 1) + u (i + 1))) ∧
    (∀ i, (2 : ℚ) ^ (i + 1) < 2 ^ (i + 1 + 1)) ∧
    (∀ i, pyDelay i * (1 / 2) ≤ (2 : ℚ) ^ (i + 1) + u (i + 1)) := by
  have hpos : ∀ i : Nat, (0 : ℚ) < 2 ^ i := fun i => by positivity
  refine ⟨collect_loop_sleeps f j R, pyDelay_pow, ?_, ?_, get_loop_sleeps g u R, ?_, ?_⟩
  · intro i
    rw [pyDelay_pow, pyDelay_pow, pow_succ]
    have := hpos i
    linarith
  · intro i
    have h0 : (0 : ℚ) ≤ pyDelay i := by rw [pyDelay_pow]; positivity
    exact mul_le_mul_of_nonneg_left (hj (i + 1)).1 h0
  · intro i
    rw [pow_succ 2 (i + 1)]
    have := hpos (i + 1)
    linarith
  · intro i
    rw [pyDelay_pow]
    have h1 := hpos i
    have h2 := (hu (i + 1)).1
    rw [pow_succ]
    linarith

/-- C5 witness: the amended statement applied to a concrete run with
constant jitter draws. -/
theorem C5_backoff_amended_witness :
    ∃ m, (collect_stock_data_loop (fun _ => (none : Option Unit)) (fun _ => 1)
      (fun _ => true) 3).sleeps
        = (List.range m).map (fun i => pyDelay i * (fun _ : Nat => (1 : ℚ)) (i + 1)) :=
  (C5_backoff_amended (fun _ => (none : Option Unit))
    (fun _ => (AttemptOut.retryable : AttemptOut Unit)) (fun _ => 1) (fun _ => 0) 3
    (fun _ => by norm_num) (fun _ => by norm_num)).1

lemma runBatches_length_le {γ : Type} (running : Nat → Bool) :
    ∀ (cl : List (List γ)) (i k : Nat), running (i + k) = false →
    (runBatches running i cl).length ≤ k := by
  intro cl
  induction cl with
  | nil => intro i k _; simp [runBatches]
  | cons b rest ih =>
    intro i k hk
    unfold runBatches
    by_cases hr : running i = true
    · rw [if_pos hr]
      cases k with
      | zero =>
        rw [Nat.add_zero] at hk
        rw [hk] at hr
        cases hr
      | succ k' =>
        simp only [List.length_cons]
        have hstep := ih (i + 1) k' (by rw [show i + 1 + k' = i + (k' + 1) by omega]; exact hk)
        omega
    · rw [if_neg hr]
      simp

lemma runBatches_is_take {γ : Type} (running : Nat → Bool) :
    ∀ (cl : List (List γ)) (i : Nat), ∃ L, runBatches running i cl = cl.take L := by
  intro cl
  induction cl with
  | nil => intro i; exact ⟨0, rfl⟩
  | cons b rest ih =>
    intro i
    unfold runBatches
    by_cases hr : running i = true
    · obtain ⟨L, hL⟩ := ih (i + 1)
      exact ⟨L + 1, by rw [if_pos hr, hL]; rfl⟩
    · exact ⟨0, by rw [if_neg hr]; rfl⟩

/-- C6: once the global flag is cleared, no new fetch attempt begins:
the retry loop of either file returns immediately with no attempts and
no sleeps; the alias resolver performs no alias-loop fetches (only the
already-started canonical call is visible at its boundary); the batch
scheduler dispatches no batch at or after an index where the flag is
false; and every batch it did dispatch is dispatched whole (the
dispatched batches are a prefix of the partition, each awaited to
completion before the next starts). -/
theorem C6_deadline_respected (α β γ : Type) :
    (∀ (f : Nat → Option α) (j : Nat → ℚ) (R : Nat),
      collect_stock_data_loop f j (fun _ => false) R
        = ⟨none, [], []⟩) ∧
    (∀ (g : Nat → AttemptOut β) (u : Nat → ℚ) (R : Nat),
      get_stock_history_loop g u (fun _ => false) R = ⟨none, [], []⟩) ∧
    (∀ (fetch : String → String × List γ) (symbol : String),
      try_aliases fetch false symbol
        = ⟨(fetch symbol).1, (fetch symbol).2, [symbol]⟩) ∧
    (∀ (fetch : String → Option (List γ)) (symbol : String),
      try_aliases_curl fetch false symbol = ⟨symbol, fetch symbol, [symbol]⟩) ∧
    (∀ (running : Nat → Bool) (bs : Nat) (symbols : List γ) (k : Nat),
      running k = false → (scheduled running bs symbols).length ≤ k) ∧
    (∀ (running : Nat → Bool) (bs : Nat) (symbols : List γ),
      ∃ L, scheduled running bs symbols = (batches bs symbols).take L) := by
  refine ⟨?_, ?_, ?_, ?_, ?_, ?_⟩
  · intro f j R
    cases R <;> simp [collect_stock_data_loop, pyLoop]
  · intro g u R
    cases R <;> simp [get_stock_history_loop, curlLoop]
  · intro fetch symbol
    simp [try_aliases]
  · intro fetch symbol
    simp [try_aliases_curl]
  · intro running bs symbols k hk
    exact runBatches_length_le running (batches bs symbols) 0 k
      (by rw [Nat.zero_add]; exact hk)
  · intro running bs symbols
    exact runBatches_is_take running (batches bs symbols) 0

/-- C6 witness: with a flag that is false from batch index 1 on, at
most one batch of the four-symbol universe is dispatched, and the
cleared-flag retry loop performs no attempt. -/
theorem C6_deadline_respected_witness :
    (scheduled (fun i => decide (i < 1)) 2 ["AALR3", "ABCB4", "ABEV3", "AERI3"]).length
      ≤ 1 ∧
    collect_stock_data_loop (fun _ => (none : Option Unit)) (fun _ => 1)
      (fun _ => false) 3 = ⟨none, [], []⟩ :=
  ⟨(C6_deadline_respected Unit Unit String).2.2.2.2.1 (fun i => decide (i < 1)) 2
      ["AALR3", "ABCB4", "ABEV3", "AERI3"] 1 (by decide),
   (C6_deadline_respected Unit Unit String).1 (fun _ => none) (fun _ => 1) 3⟩

lemma try_alias_loop_first_success {β : Type} (f : String → String × List β)
    (symbol a : String) (post : List String) (ha : a ≠ symbol)
    (hfa : (f a).2.isEmpty = false) :
    ∀ (pre : List String), (∀ b ∈ pre, b = symbol ∨ (f b).2.isEmpty = true) →
    try_alias_loop f true symbol (pre ++ a :: post)
      = (some ((f a).1, (f a).2), pre.filter (fun b => !(b == symbol)) ++ [a]) := by
  intro pre
  induction pre with
  | nil =>
    intro _
    simp only [List.nil_append, try_alias_loop]
    rw [if_neg (by simp), if_neg ha, if_neg (by simp [hfa])]
    simp
  | cons b pre' ih =>
    intro hpre
    by_cases hbs : b = symbol
    · simp only [List.cons_append, try_alias_loop, List.append_eq]
      rw [if_neg (by simp), if_pos hbs]
      rw [ih (fun x hx => hpre x (List.mem_cons_of_mem b hx))]
      simp [hbs]
    · have hbe : (f b).2.isEmpty = true :=
        (hpre b (List.mem_cons_self b pre')).resolve_left hbs
      simp only [List.cons_append, try_alias_loop, List.append_eq]
      rw [if_neg (by simp), if_neg hbs, if_pos hbe]
      rw [ih (fun x hx => hpre x (List.mem_cons_of_mem b hx))]
      simp [hbs]

lemma try_alias_loop_all_fail {β : Type} (f : String → String × List β)
    (symbol : String) :
    ∀ (al : List String), (∀ b ∈ al, b = symbol ∨ (f b).2.isEmpty = true) →
    try_alias_loop f true symbol al
      = (none, al.filter (fun b => !(b == symbol))) := by
  intro al
  induction al with
  | nil => intro _; rfl
  | cons b rest ih =>
    intro h
    by_cases hbs : b = symbol
    · simp only [try_alias_loop]
      rw [if_neg (by simp), if_pos hbs]
      rw [ih (fun x hx => h x (List.mem_cons_of_mem b hx))]
      simp [hbs]
    · have hbe : (f b).2.isEmpty = true :=
        (h b (List.mem_cons_self b rest)).resolve_left hbs
      simp only [try_alias_loop]
      rw [if_neg (by simp), if_neg hbs, if_pos hbe]
      rw [ih (fun x hx => h x (List.mem_cons_of_mem b hx))]
      simp [hbs]

lemma try_alias_loop_curl_first_success {β : Type} (g : String → Option (List β))
    (symbol a : String) (post : List String) (ha : a ≠ symbol)
    {bars : List β} (hga : g a = some bars) (hbe : bars.isEmpty = false) :
    ∀ (pre : List String), (∀ b ∈ pre, b = symbol ∨ dfMissing (g b) = true) →
    try_alias_loop_curl g true symbol (pre ++ a :: post)
      = (g a, pre.filter (fun b => !(b == symbol)) ++ [a]) := by
  intro pre
  induction pre with
  | nil =>
    intro _
    simp only [List.nil_append, try_alias_loop_curl]
    rw [if_neg (by simp), if_neg ha, hga]
    dsimp only
    rw [if_neg (by simp [hbe])]
    simp
  | cons b pre' ih =>
    intro hpre
    by_cases hbs : b = symbol
    · simp only [List.cons_append, try_alias_loop_curl, List.append_eq]
      rw [if_neg (by simp), if_pos hbs]
      rw [ih (fun x hx => hpre x (List.mem_cons_of_mem b hx))]
      simp [hbs]
    · have hbm : dfMissing (g b) = true :=
        (hpre b (List.mem_cons_self b pre')).resolve_left hbs
      simp only [List.cons_append, try_alias_loop_curl, List.append_eq]
      rw [if_neg (by simp), if_neg hbs]
      rcases hgb : g b with _ | bl
      · dsimp only
        rw [ih (fun x hx => hpre x (List.mem_cons_of_mem b hx))]
        simp [hbs]
      · have hbl : bl.isEmpty = true := by
          rw [hgb] at hbm
          exact hbm
        dsimp only
        rw [if_pos hbl]
        rw [ih (fun x hx => hpre x (List.mem_cons_of_mem b hx))]
        simp [hbs]

lemma try_alias_loop_curl_all_fail {β : Type} (g : String → Option (List β))
    (symbol : String) :
    ∀ (al : List String), (∀ b ∈ al, b = symbol ∨ dfMissing (g b) = true) →
    try_alias_loop_curl g true symbol al
      = (none, al.filter (fun b => !(b == symbol))) := by
  intro al
  induction al with
  | nil => intro _; rfl
  | cons b rest ih =>
    intro h
    by_cases hbs : b = symbol
    · simp only [try_alias_loop_curl]
      rw [if_neg (by simp), if_pos hbs]
      rw [ih (fun x hx => h x (List.mem_cons_of_mem b hx))]
      simp [hbs]
    · have hbm : dfMissing (g b) = true := (h b (List.mem_cons_self b rest)).resolve_left hbs
      simp only [try_alias_loop_curl]
      rw [if_neg (by simp), if_neg hbs]
      rcases hgb : g b with _ | bl
      · dsimp only
        rw [ih (fun x hx => h x (List.mem_cons_of_mem b hx))]
        simp [hbs]
      · have hbl : bl.isEmpty = true := by
          rw [hgb] at hbm
          exact hbm
        dsimp only
        rw [if_pos hbl]
        rw [ih (fun x hx => h x (List.mem_cons_of_mem b hx))]
        simp [hbs]

/-- C4 counterexample: the claim says that when no variant succeeds the
resolver returns the original symbol as name placeholder.  In
`collect_history.py`, `collect_stock_data` can return a resolved
display name together with an empty DataFrame (the `ticker.info` block
runs even when the history is empty), and `try_aliases` then returns
that name, not the original symbol: with a fetch callee that yields
("VIBRA ENERGIA S.A.", no bars) for "VBBR3" and no data for either
alias, the resolver returns empty bars with name "VIBRA ENERGIA S.A."
≠ "VBBR3". -/
theorem C4_counterexample :
    (try_aliases (fun s => if s = "VBBR3" then ("VIBRA ENERGIA S.A.", ([] : List ℚ))
      else ("", [])) true "VBBR3").bars = [] ∧
    (try_aliases (fun s => if s = "VBBR3" then ("VIBRA ENERGIA S.A.", ([] : List ℚ))
      else ("", [])) true "VBBR3").name ≠ "VBBR3" := by
  constructor
  · decide
  · decide

/-- C4 (amended): the alias resolver tries the canonical symbol first
and returns it outright when non-empty; if that fetch is empty and the
symbol has a configured alias list, it walks the aliases in list order
(skipping an alias equal to the canonical symbol), stops at the first
alias yielding a non-empty bar sequence, returns those bars, and calls
no later alias (the recorded call trace is the canonical symbol, the
failed aliases, and the succeeding alias only).  The display name:
`collect_history.py` returns the name produced by the succeeding
variant's fetch, and when none succeed the name produced by the
canonical fetch (which is the original symbol only when that fetch
resolved no name); `collect_history_curl.py` always returns the
original symbol as the name, even when an alias succeeded. -/
theorem C4_alias_resolver_amended {β : Type} (f : String → String × List β)
    (g : String → Option (List β)) (symbol : String) (al pre post : List String)
    (a : String) :
    ((f symbol).2.isEmpty = false →
      try_aliases f true symbol = ⟨(f symbol).1, (f symbol).2, [symbol]⟩) ∧
    ((f symbol).2.isEmpty = true → aliasesOf symbol = some al →
      al = pre ++ a :: post → (∀ b ∈ pre, b = symbol ∨ (f b).2.isEmpty = true) →
      a ≠ symbol → (f a).2.isEmpty = false →
      try_aliases f true symbol
        = ⟨(f a).1, (f a).2,
           symbol :: (pre.filter (fun b => !(b == symbol)) ++ [a])⟩) ∧
    ((f symbol).2.isEmpty = true → aliasesOf symbol = some al →
      (∀ b ∈ al, b = symbol ∨ (f b).2.isEmpty = true) →
      try_aliases f true symbol
        = ⟨(f symbol).1, (f symbol).2,
           symbol :: al.filter (fun b => !(b == symbol))⟩) ∧
    (∀ (r : Bool), (try_aliases_curl g r symbol).name = symbol) ∧
    (dfMissing (g symbol) = true → aliasesOf symbol = some al →
      al = pre ++ a :: post → (∀ b ∈ pre, b = symbol ∨ dfMissing (g b) = true) →
      a ≠ symbol → (∀ bars, g a = some bars → bars.isEmpty = false) →
      (∃ bars, g a = some bars) →
      try_aliases_curl g true symbol
        = ⟨symbol, g a,
           symbol :: (pre.filter (fun b => !(b == symbol)) ++ [a])⟩) := by
  refine ⟨?_, ?_, ?_, ?_, ?_⟩
  · intro hne
    unfold try_aliases
    rw [if_neg (by simp [hne])]
  · intro hemp hal halsplit hpre ha hfa
    unfold try_aliases
    rw [if_pos (by simp [hemp, hal])]
    rw [hal]
    simp only [Option.getD_some]
    rw [halsplit, try_alias_loop_first_success f symbol a post ha hfa pre hpre]
  · intro hemp hal hall
    unfold try_aliases
    rw [if_pos (by simp [hemp, hal])]
    rw [hal]
    simp only [Option.getD_some]
    rw [try_alias_loop_all_fail f symbol al hall]
  · intro r
    unfold try_aliases_curl
    split
    · rcases hres : try_alias_loop_curl g r symbol ((aliasesOf symbol).getD []) with ⟨o, calls⟩
      rcases o with _ | ad <;> rfl
    · rfl
  · intro hmiss hal halsplit hpre ha hnonempty hex
    obtain ⟨bars, hga⟩ := hex
    have hbe : bars.isEmpty = false := hnonempty bars hga
    unfold try_aliases_curl
    rw [if_pos (by simp [hmiss, hal])]
    rw [hal]
    simp only [Option.getD_some]
    rw [halsplit, try_alias_loop_curl_first_success g symbol a post ha hga hbe pre hpre]
    rw [hga]

/-- C4 (amended) witness: canonical fetch of "VBBR3" empty, first alias
"VBBR3.SA" empty, second alias "BRDT3.SA" non-empty — the resolver
returns the second alias's fetch and its call trace is exactly the
canonical symbol, the failed alias and the succeeding alias. -/
theorem C4_alias_resolver_amended_witness :
    try_aliases (fun s => if s = "BRDT3.SA" then ("VIBRA ENERGIA S.A.", [(1 : ℚ)])
        else ("VBBR3", [])) true "VBBR3"
      = ⟨((fun s => if s = "BRDT3.SA" then ("VIBRA ENERGIA S.A.", [(1 : ℚ)])
            else ("VBBR3", [])) "BRDT3.SA").1,
         ((fun s => if s = "BRDT3.SA" then ("VIBRA ENERGIA S.A.", [(1 : ℚ)])
            else ("VBBR3", [])) "BRDT3.SA").2,
         "VBBR3" :: (["VBBR3.SA"].filter (fun b => !(b == "VBBR3")) ++ ["BRDT3.SA"])⟩ :=
  (C4_alias_resolver_amended
    (fun s => if s = "BRDT3.SA" then ("VIBRA ENERGIA S.A.", [(1 : ℚ)]) else ("VBBR3", []))
    (fun _ => none) "VBBR3" ["VBBR3.SA", "BRDT3.SA"] ["VBBR3.SA"] []
    "BRDT3.SA").2.1 (by decide) (by decide) rfl (by decide) (by decide) (by decide)
